import Mathlib

/-!
Verification of the faviyolo rendering and encoding pipeline.

Shallow embedding notes:
* JS numbers are modelled as exact rationals (`ℚ`); the decimal literals of the
  source (`0.68`, `0.7`, `0.3`) are modelled as the exact rationals they denote.
* JS strings are modelled as `List Char` where the code parses or builds them
  character by character, and as `String` where they are only compared.
* `Math.round`, `Math.floor`, the JS remainder `%` (truncated toward zero) and
  `Math.trunc` are modelled explicitly on `ℚ`.
* Byte buffers (`ArrayBuffer`/`Uint8Array`) are `List ℕ` with values < 256.
* Characters produced by `String.fromCodePoint` in the random-character
  generator are modelled by their code points (`ℕ`).
-/

/-! ## JS numeric primitives -/

/-- JS `Math.trunc` / the implicit truncation in the `%` operator:
rounding toward zero. -/
def jsTrunc (q : ℚ) : ℤ := if 0 ≤ q then ⌊q⌋ else ⌈q⌉

/-- The JS remainder operator `a % b` (sign follows the dividend). -/
def jsMod (a b : ℚ) : ℚ := a - b * (jsTrunc (a / b) : ℚ)

/-- JS `Math.floor`. -/
def jsFloor (q : ℚ) : ℤ := ⌊q⌋

/-- JS `Math.round` (rounds half-up, toward plus infinity). -/
def jsRound (q : ℚ) : ℤ := ⌊q + 1/2⌋

/-! ## PNG → ICO container (`createIcoFromPng`, src/app/page.tsx:227-244) -/

/-- Little-endian byte decomposition of a `DataView.setUint16` write. -/
def setUint16LE (v : ℕ) : List ℕ := [v % 256, v / 256 % 256]

/-- Little-endian byte decomposition of a `DataView.setUint32` write.
Per-byte reduction mod 256 makes this agree with the JS `ToUint32`
wrap-around for arbitrary `v`. -/
def setUint32LE (v : ℕ) : List ℕ :=
  [v % 256, v / 256 % 256, v / 256 ^ 2 % 256, v / 256 ^ 3 % 256]

/-- The 22-byte ICONDIR + ICONDIRENTRY header written by `createIcoFromPng`
for a PNG payload of `n` bytes. -/
def icoHeader (n : ℕ) : List ℕ :=
  setUint16LE 0 ++        -- reserved
  setUint16LE 1 ++        -- icon type
  setUint16LE 1 ++        -- image count
  [0] ++                  -- width 256 encoded as 0
  [0] ++                  -- height 256 encoded as 0
  [0] ++                  -- color palette
  [0] ++                  -- reserved
  setUint16LE 1 ++        -- color planes
  setUint16LE 32 ++       -- bits per pixel
  setUint32LE n ++        -- image size
  setUint32LE 22          -- offset

/-- `createIcoFromPng` (src/app/page.tsx:227-244): concatenates the
hand-built 22-byte header with the raw PNG bytes. -/
def createIcoFromPng (pngBytes : List ℕ) : List ℕ :=
  icoHeader pngBytes.length ++ pngBytes

/-! ## Background path (draw effect, src/app/page.tsx:421-436) -/

/-- Canvas 2D path commands issued by the draw effect.  Arc angles are
recorded as exact rational multiples of π (the source passes `0` and
`Math.PI * 2`). -/
inductive PathCmd
  | moveTo (x y : ℚ)
  | arcTo (x1 y1 x2 y2 r : ℚ)
  | arc (x y r startMulPi endMulPi : ℚ)
  deriving Repr, DecidableEq

/-- The corner radius in pixels: `Math.min(size / 2, size * cornerRadius)`. -/
def bgRadiusPx (size cornerRadius : ℚ) : ℚ := min (size / 2) (size * cornerRadius)

/-- The background path traced by the draw effect
(src/app/page.tsx:423-434): a full circle when the radius reaches half
the surface, otherwise a rounded rectangle from four `arcTo` corners. -/
def backgroundPath (size cornerRadius : ℚ) : List PathCmd :=
  let radiusPx := bgRadiusPx size cornerRadius
  if size / 2 ≤ radiusPx then
    [.arc (size / 2) (size / 2) (size / 2) 0 2]
  else
    [.moveTo radiusPx 0,
     .arcTo size 0 size size radiusPx,
     .arcTo size size 0 size radiusPx,
     .arcTo 0 size 0 0 radiusPx,
     .arcTo 0 0 size 0 radiusPx]

/-! ## Glyph placement (draw effect, src/app/page.tsx:437-450) -/

/-- The subset of a canvas `TextMetrics` read by the draw effect.  The
`actualBoundingBox*` fields are optional (`??` fallbacks in the source). -/
structure TextMetrics where
  actualBoundingBoxAscent : Option ℚ
  actualBoundingBoxDescent : Option ℚ
  actualBoundingBoxLeft : Option ℚ
  actualBoundingBoxRight : Option ℚ
  width : ℚ
  deriving Repr

/-- The `fillText` call computed by the draw effect:  which family string is
put into `ctx.font` and where the glyph anchor is placed. -/
structure GlyphDraw where
  family : String
  fontSize : ℤ
  x : ℚ
  y : ℚ
  deriving Repr

/-- Glyph placement from the draw effect (src/app/page.tsx:440-450):
`fontSize = Math.round(size * 0.68)`, `baselineY = size / 2 +
(ascent - descent) / 2`, `xOffset = (left - right) / 2`, drawing at
`(size / 2 + xOffset, baselineY)` with the current preview family. -/
def drawGlyph (size : ℚ) (fontFamily : String) (m : TextMetrics) : GlyphDraw :=
  let fontSize := jsRound (size * (68 / 100))
  let ascent := m.actualBoundingBoxAscent.getD ((fontSize : ℚ) * (7 / 10))
  let descent := m.actualBoundingBoxDescent.getD ((fontSize : ℚ) * (3 / 10))
  let baselineY := size / 2 + (ascent - descent) / 2
  let left := m.actualBoundingBoxLeft.getD (m.width / 2)
  let right := m.actualBoundingBoxRight.getD (m.width / 2)
  let xOffset := (left - right) / 2
  { family := fontFamily, fontSize := fontSize, x := size / 2 + xOffset, y := baselineY }

/-- With `textAlign = "center"` and `textBaseline = "alphabetic"`, a glyph
drawn at `(g.x, g.y)` covers the box `[g.x - left, g.x + right] ×
[g.y - ascent, g.y + descent]`; this is its visual center. -/
def glyphBBoxCenter (g : GlyphDraw) (ascent descent left right : ℚ) : ℚ × ℚ :=
  (g.x + (right - left) / 2, g.y + (descent - ascent) / 2)

/-! ## Font load state machine (src/app/page.tsx:350-410)

The `Home` component keeps `fontConfig`, `fontStatus` and
`previewFontFamily` in React state.  Three effects are modelled:
* the descriptor effect (lines 350-361) sets `fontStatus` to `loading`
  and stores the new config;
* the load effect (lines 363-396) starts an asynchronous load and, via a
  closure-captured `cancelled` flag set by its cleanup, drops stale
  resolutions; the flag is modelled by a monotone `activeToken` — a load
  belongs to the token current when it started, and is cancelled exactly
  when a newer effect run has bumped the token;
* the preview-family effect (lines 398-410) recomputes
  `previewFontFamily` from `(fontConfig, fontStatus)`.
-/

inductive FontStatus
  | idle
  | loading
  | ready
  | error
  deriving Repr, DecidableEq

structure FontConfig where
  cssHref : String
  fontFamily : String
  deriving Repr, DecidableEq

/-- The preview-family effect body (src/app/page.tsx:398-410): no config
→ `"sans-serif"`; `ready` → the resolved family; `error` → `"sans-serif"`;
any other status leaves the previous value in place. -/
def previewFamilyUpdate (cfg : Option FontConfig) (status : FontStatus)
    (prev : String) : String :=
  match cfg with
  | none => "sans-serif"
  | some c =>
    match status with
    | .ready => c.fontFamily
    | .error => "sans-serif"
    | _ => prev

structure AppState where
  fontConfig : Option FontConfig
  fontStatus : FontStatus
  previewFontFamily : String
  /-- Token of the most recent load-effect run; a load started under an
  older token has had its `cancelled` flag set by that run's cleanup. -/
  activeToken : ℕ
  deriving Repr, DecidableEq

/-- Events driving the model: the user selects a (possibly absent) font,
or the asynchronous load started under `token` settles. -/
inductive AppEvent
  | selectFont (cfg : Option FontConfig)
  | loadResolve (token : ℕ)
  | loadReject (token : ℕ)

/-- Selecting a descriptor: effect 350-361 stores the config and sets
`loading`; the load effect's cleanup cancels the previous load (token
bump) and a new load starts (when a config is present) under the new
token; the preview effect then runs on the changed pair. -/
def stepSelect (s : AppState) (cfg : Option FontConfig) : AppState :=
  match cfg with
  | none =>
    { fontConfig := none
      fontStatus := .idle
      previewFontFamily := previewFamilyUpdate none .idle s.previewFontFamily
      activeToken := s.activeToken + 1 }
  | some c =>
    { fontConfig := some c
      fontStatus := .loading
      previewFontFamily := previewFamilyUpdate (some c) .loading s.previewFontFamily
      activeToken := s.activeToken + 1 }

/-- A load resolving: the closure checks its `cancelled` flag
(src/app/page.tsx:379-381) — only the load of the current token may set
`ready`, after which the preview effect re-runs. -/
def stepResolve (s : AppState) (token : ℕ) : AppState :=
  if token = s.activeToken then
    { s with
      fontStatus := .ready
      previewFontFamily := previewFamilyUpdate s.fontConfig .ready s.previewFontFamily }
  else s

/-- A load rejecting: same staleness check (src/app/page.tsx:384-386)
before setting `error`. -/
def stepReject (s : AppState) (token : ℕ) : AppState :=
  if token = s.activeToken then
    { s with
      fontStatus := .error
      previewFontFamily := previewFamilyUpdate s.fontConfig .error s.previewFontFamily }
  else s

def stepApp (s : AppState) : AppEvent → AppState
  | .selectFont cfg => stepSelect s cfg
  | .loadResolve t => stepResolve s t
  | .loadReject t => stepReject s t

def runApp (s : AppState) (es : List AppEvent) : AppState := es.foldl stepApp s

/-- Mount state with the default catalog entry (src/app/page.tsx:265-276):
config present, status `loading`, preview family `"sans-serif"`, the
mount load effect running under token 0. -/
def initApp (cfg : FontConfig) : AppState :=
  { fontConfig := some cfg
    fontStatus := .loading
    previewFontFamily := "sans-serif"
    activeToken := 0 }

/-! ## Font load cache (`loadFontFace`, src/lib/font-loader.ts:109-128)

Promises are modelled by numeric identities; `loadCache` is an
association list from the composite key to the promise currently cached
for it.  `started` logs every actual `loadFontOnce` invocation. -/

structure LoadFontFaceOptions where
  cssHref : String
  fontFamily : String
  weight : Option String
  size : Option ℕ
  deriving Repr, DecidableEq

/-- The cache key template string
`${cssHref}|${fontFamily}|${weight ?? "400"}|${size ?? 64}`. -/
def loadKey (o : LoadFontFaceOptions) : String :=
  o.cssHref ++ "|" ++ o.fontFamily ++ "|" ++ o.weight.getD "400" ++ "|" ++
    toString (o.size.getD 64)

/-- `Map.set`: replace any binding of `k`, most recent binding first. -/
def mapSet (l : List (String × ℕ)) (k : String) (v : ℕ) : List (String × ℕ) :=
  (k, v) :: l.filter (fun p => p.1 ≠ k)

/-- `Map.delete`. -/
def mapDelete (l : List (String × ℕ)) (k : String) : List (String × ℕ) :=
  l.filter (fun p => p.1 ≠ k)

/-- `Map.get` as `List.lookup`. -/
def mapGet (l : List (String × ℕ)) (k : String) : Option ℕ := l.lookup k

structure FontLoadSim where
  cache : List (String × ℕ)
  nextId : ℕ
  /-- Log of `(key, promise)` pairs for which `loadFontOnce` was actually
  invoked. -/
  started : List (String × ℕ)
  deriving Repr, DecidableEq

/-- A `loadFontFace` call (src/lib/font-loader.ts:109-128): a cache hit
returns the cached promise untouched; a miss starts `loadFontOnce`,
caches the chained promise under the key and returns it. -/
def loadFontFaceStep (st : FontLoadSim) (o : LoadFontFaceOptions) :
    ℕ × FontLoadSim :=
  let key := loadKey o
  match mapGet st.cache key with
  | some p => (p, st)
  | none =>
    (st.nextId,
     { cache := mapSet st.cache key st.nextId
       nextId := st.nextId + 1
       started := st.started ++ [(key, st.nextId)] })

/-- The rejection path of the chained promise
(src/lib/font-loader.ts:119-122): the `catch` handler deletes the cache
entry for the key and rethrows. -/
def settleFailure (st : FontLoadSim) (key : String) : FontLoadSim :=
  { st with cache := mapDelete st.cache key }

/-- The fulfilment path (src/lib/font-loader.ts:123-125): the `then`
handler replaces the entry with a fresh `Promise.resolve()`. -/
def settleSuccess (st : FontLoadSim) (key : String) : FontLoadSim :=
  { cache := mapSet st.cache key st.nextId
    nextId := st.nextId + 1
    started := st.started }

/-! ## Theorems: ICO container (C1) -/

/-- C1: for every PNG byte buffer of length `N` (below the `setUint32`
wrap-around bound `2^32`), `createIcoFromPng` returns `22 + N` bytes — the
22-byte header followed by the PNG verbatim — whose fields little-endian
encode: reserved 0, type 1, count 1, width/height bytes 0, palette 0,
reserved 0, planes 1, bits-per-pixel 32, image size `N`, offset 22. -/
theorem createIcoFromPng_spec (png : List ℕ) (h : png.length < 2 ^ 32) :
    (createIcoFromPng png).length = 22 + png.length ∧
    (createIcoFromPng png).take 22 = icoHeader png.length ∧
    (createIcoFromPng png).drop 22 = png ∧
    (let b := fun i => (createIcoFromPng png).getD i 0
     b 0 = 0 ∧ b 1 = 0 ∧
     b 2 + 256 * b 3 = 1 ∧
     b 4 + 256 * b 5 = 1 ∧
     b 6 = 0 ∧ b 7 = 0 ∧ b 8 = 0 ∧ b 9 = 0 ∧
     b 10 + 256 * b 11 = 1 ∧
     b 12 + 256 * b 13 = 32 ∧
     b 14 + 256 * b 15 + 256 ^ 2 * b 16 + 256 ^ 3 * b 17 = png.length ∧
     b 18 + 256 * b 19 + 256 ^ 2 * b 20 + 256 ^ 3 * b 21 = 22) := by
  refine ⟨?_, ?_, ?_, ?_⟩
  · simp [createIcoFromPng, icoHeader, setUint16LE, setUint32LE]; omega
  · simp [createIcoFromPng, icoHeader, setUint16LE, setUint32LE]
  · simp [createIcoFromPng, icoHeader, setUint16LE, setUint32LE]
  · refine ⟨?_, ?_, ?_, ?_, ?_, ?_, ?_, ?_, ?_, ?_, ?_, ?_⟩ <;>
      simp [createIcoFromPng, icoHeader, setUint16LE, setUint32LE] <;> omega

/-- Witness for C1 at a concrete 4-byte payload. -/
theorem createIcoFromPng_spec_witness :
    (createIcoFromPng [137, 80, 78, 71]).length = 22 + 4 := by
  have := createIcoFromPng_spec [137, 80, 78, 71] (by decide)
  simpa using this.1

/-! ## Theorems: background path (C5) -/

/-- C5: for every corner radius fraction in `[0, 1/2]` on the 256-pixel
surface, the pixel radius is `min (size/2) (size·frac)`; when it reaches
`size/2` the path is the inscribed full circle, and otherwise it is the
rounded rectangle whose four `arcTo` corners carry exactly the computed
radius `size·frac`. -/
theorem backgroundPath_spec (frac : ℚ) (h0 : 0 ≤ frac) (h1 : frac ≤ 1 / 2) :
    bgRadiusPx 256 frac = min (256 / 2) (256 * frac) ∧
    (256 / 2 ≤ bgRadiusPx 256 frac →
      backgroundPath 256 frac = [.arc (256 / 2) (256 / 2) (256 / 2) 0 2]) ∧
    (bgRadiusPx 256 frac < 256 / 2 →
      bgRadiusPx 256 frac = 256 * frac ∧
      backgroundPath 256 frac =
        [.moveTo (256 * frac) 0,
         .arcTo 256 0 256 256 (256 * frac),
         .arcTo 256 256 0 256 (256 * frac),
         .arcTo 0 256 0 0 (256 * frac),
         .arcTo 0 0 256 0 (256 * frac)]) := by
  have hmin : bgRadiusPx 256 frac = 256 * frac := by
    have : (256 : ℚ) * frac ≤ 256 / 2 := by linarith
    simpa [bgRadiusPx] using min_eq_right this
  refine ⟨rfl, ?_, ?_⟩
  · intro hc
    simp [backgroundPath, if_pos hc]
  · intro hc
    refine ⟨hmin, ?_⟩
    rw [backgroundPath]
    simp only [not_le.mpr hc, if_false]
    rw [hmin]

/-- Witness for C5 at the degenerate fraction `1/2` (circle case) and at
`1/5` (rounded-rectangle case). -/
theorem backgroundPath_spec_witness :
    backgroundPath 256 (1 / 2) = [.arc (256 / 2) (256 / 2) (256 / 2) 0 2] ∧
    backgroundPath 256 (1 / 5) =
      [.moveTo (256 * (1 / 5)) 0,
       .arcTo 256 0 256 256 (256 * (1 / 5)),
       .arcTo 256 256 0 256 (256 * (1 / 5)),
       .arcTo 0 256 0 0 (256 * (1 / 5)),
       .arcTo 0 0 256 0 (256 * (1 / 5))] := by
  constructor
  · exact (backgroundPath_spec (1 / 2) (by norm_num) (by norm_num)).2.1 (by
      simp [bgRadiusPx]; norm_num)
  · exact ((backgroundPath_spec (1 / 5) (by norm_num) (by norm_num)).2.2 (by
      simp [bgRadiusPx]; norm_num)).2

/-! ## Theorems: glyph placement (C6) -/

/-- C6: with all four bounding-box metrics measured, the draw effect
places the glyph anchor at `baselineY = size/2 + (ascent − descent)/2`
and `x = size/2 + (left − right)/2`, which puts the glyph's visual
bounding-box center exactly at the surface center. -/
theorem drawGlyph_centered (size : ℚ) (family : String) (asc desc l r w : ℚ) :
    (drawGlyph size family ⟨some asc, some desc, some l, some r, w⟩).y =
        size / 2 + (asc - desc) / 2 ∧
    (drawGlyph size family ⟨some asc, some desc, some l, some r, w⟩).x =
        size / 2 + (l - r) / 2 ∧
    glyphBBoxCenter (drawGlyph size family ⟨some asc, some desc, some l, some r, w⟩)
        asc desc l r = (size / 2, size / 2) := by
  refine ⟨rfl, rfl, ?_⟩
  simp only [glyphBBoxCenter, drawGlyph, Option.getD_some, Prod.mk.injEq]
  constructor <;> ring

/-! ## Theorems: preview font family (C3) -/

/-- Counterexample to C3 as stated: after font A becomes ready and a
switch to font B starts loading, the state has `fontStatus = loading`
yet the compositor keeps drawing with A's family, not `"sans-serif"`. -/
theorem previewFamily_claim_counterexample :
    ¬ (∀ (cfg : FontConfig) (es : List AppEvent),
        (runApp (initApp cfg) es).fontStatus ≠ .ready →
        (runApp (initApp cfg) es).previewFontFamily = "sans-serif") := by
  intro hclaim
  have := hclaim ⟨"https://a.css", "Orbitron"⟩
    [.loadResolve 0, .selectFont (some ⟨"https://b.css", "Inter"⟩)]
    (by decide)
  revert this
  decide

/-- C3 amended: the compositor always draws with the current preview
family (the draw effect never consults the load status); that family is
`"sans-serif"` when no config is present or on `error`, the resolved
family exactly when `ready`, and the previous value (initially
`"sans-serif"`, possibly an earlier ready family) while `loading` or
`idle`. -/
theorem previewFamily_spec :
    (∀ (st : FontStatus) (prev : String),
        previewFamilyUpdate none st prev = "sans-serif") ∧
    (∀ (c : FontConfig) (prev : String),
        previewFamilyUpdate (some c) .ready prev = c.fontFamily) ∧
    (∀ (c : FontConfig) (prev : String),
        previewFamilyUpdate (some c) .error prev = "sans-serif") ∧
    (∀ (c : FontConfig) (prev : String),
        previewFamilyUpdate (some c) .loading prev = prev) ∧
    (∀ (c : FontConfig) (prev : String),
        previewFamilyUpdate (some c) .idle prev = prev) ∧
    (∀ (cfg : FontConfig), (initApp cfg).previewFontFamily = "sans-serif") ∧
    (∀ (size : ℚ) (fam : String) (m : TextMetrics),
        (drawGlyph size fam m).family = fam) := by
  refine ⟨fun st prev => rfl, fun c prev => rfl, fun c prev => rfl,
    fun c prev => rfl, fun c prev => rfl, fun cfg => rfl, fun size fam m => rfl⟩

/-! ## Theorems: stale-load suppression (C4) -/

/-- C4: a load settling under a token other than the active one — i.e.
one whose `cancelled` flag was set by a newer request's cleanup — leaves
the state (in particular `fontStatus`) completely unchanged, whether it
resolves or rejects. -/
theorem staleLoad_never_updates (s : AppState) (t : ℕ)
    (h : t ≠ s.activeToken) :
    stepResolve s t = s ∧ stepReject s t = s := by
  constructor <;> simp [stepResolve, stepReject, h]

/-- Witness for C4: token 0 is stale after a supersession bumped the
active token to 1; its resolution and rejection are both no-ops. -/
theorem staleLoad_never_updates_witness :
    stepResolve ⟨some ⟨"b.css", "Inter"⟩, .loading, "sans-serif", 1⟩ 0 =
        ⟨some ⟨"b.css", "Inter"⟩, .loading, "sans-serif", 1⟩ ∧
    stepReject ⟨some ⟨"b.css", "Inter"⟩, .loading, "sans-serif", 1⟩ 0 =
        ⟨some ⟨"b.css", "Inter"⟩, .loading, "sans-serif", 1⟩ :=
  staleLoad_never_updates ⟨some ⟨"b.css", "Inter"⟩, .loading, "sans-serif", 1⟩ 0
    (by decide)

/-! ## Theorems: load cache (C9, C10) -/

theorem mapGet_mapSet_self (l : List (String × ℕ)) (k : String) (v : ℕ) :
    mapGet (mapSet l k v) k = some v := by
  simp [mapGet, mapSet, List.lookup]

theorem mapGet_mapDelete_self (l : List (String × ℕ)) (k : String) :
    mapGet (mapDelete l k) k = none := by
  induction l with
  | nil => rfl
  | cons p rest ih =>
    by_cases h : p.1 = k
    · simpa [mapGet, mapDelete, List.filter_cons, h] using ih
    · have hb : (k == p.1) = false := by
        simp [beq_iff_eq]
        exact fun he => h he.symm
      simpa [mapGet, mapDelete, List.filter_cons, h, List.lookup, hb] using ih

/-- C9: a `loadFontFace` call issued right after another call with the
identical `(cssHref, family, weight, size)` tuple — while that load is
still cached/in flight — returns the very same promise and leaves the
cache state (including the log of actually started loads) untouched. -/
theorem loadFontFace_coalesces (st : FontLoadSim) (o : LoadFontFaceOptions) :
    loadFontFaceStep (loadFontFaceStep st o).2 o =
      ((loadFontFaceStep st o).1, (loadFontFaceStep st o).2) := by
  rw [loadFontFaceStep]
  cases hc : mapGet st.cache (loadKey o) with
  | some p =>
    simp only [loadFontFaceStep, hc]
  | none =>
    simp only [loadFontFaceStep, hc]
    simp [mapGet_mapSet_self]

/-- C10: when the chained load promise rejects, the `catch` handler
evicts the key before the rejection propagates, so the next identical
call misses the cache and actually starts a fresh `loadFontOnce`
(the started-load log grows); when it fulfils, the key stays cached as
an already-resolved promise. -/
theorem loadFontFace_failure_evicts (st : FontLoadSim)
    (o : LoadFontFaceOptions) :
    mapGet (settleFailure st (loadKey o)).cache (loadKey o) = none ∧
    (loadFontFaceStep (settleFailure st (loadKey o)) o).2.started =
      st.started ++ [(loadKey o, st.nextId)] ∧
    mapGet (settleSuccess st (loadKey o)).cache (loadKey o) =
      some st.nextId := by
  refine ⟨mapGet_mapDelete_self _ _, ?_, mapGet_mapSet_self _ _ _⟩
  rw [loadFontFaceStep]
  simp [settleFailure, mapGet_mapDelete_self]

/-! ## Random character generator (src/app/page.tsx:29-200)

Characters are modelled by their code points.  Each attempt of the
selection loop consumes two JS `Math.random()` draws (category pick and
index pick), modelled as a stream of rational pairs. -/

/-- Code points removed by JS `String.prototype.trim` (ECMAScript
WhiteSpace and LineTerminator). -/
def jsWhitespaceCodes : List ℕ :=
  [0x9, 0xA, 0xB, 0xC, 0xD, 0x20, 0xA0, 0x1680,
   0x2000, 0x2001, 0x2002, 0x2003, 0x2004, 0x2005, 0x2006, 0x2007,
   0x2008, 0x2009, 0x200A, 0x2028, 0x2029, 0x202F, 0x205F, 0x3000, 0xFEFF]

/-- `char.trim()` of a single-code-point string is empty exactly when the
code point is JS whitespace. -/
def isJsWhitespaceCp (cp : ℕ) : Bool := cp ∈ jsWhitespaceCodes

structure UnicodeRange where
  start : ℕ
  /-- The source field is named `end`, a Lean keyword. -/
  stop : ℕ
  deriving Repr, DecidableEq

structure RandomCharCategory where
  name : String
  weight : ℚ
  ranges : List UnicodeRange
  deriving Repr, DecidableEq

/-- The curated category table (src/app/page.tsx:40-99). -/
def RANDOM_CHAR_CATEGORIES : List RandomCharCategory :=
  [⟨"digits", 4, [⟨0x30, 0x39⟩]⟩,
   ⟨"latin-upper", 4, [⟨0x41, 0x5a⟩]⟩,
   ⟨"latin-lower", 4, [⟨0x61, 0x7a⟩]⟩,
   ⟨"ascii-punctuation", 3,
     [⟨0x21, 0x2f⟩, ⟨0x3a, 0x40⟩, ⟨0x5b, 0x60⟩, ⟨0x7b, 0x7e⟩]⟩,
   ⟨"latin-extended", 2, [⟨0xa1, 0x024f⟩]⟩,
   ⟨"cjk-punctuation", 2, [⟨0x3001, 0x303f⟩]⟩,
   ⟨"hiragana", 3, [⟨0x3041, 0x309f⟩]⟩,
   ⟨"katakana", 3, [⟨0x30a0, 0x30ff⟩]⟩,
   ⟨"kanji", 2, [⟨0x4e00, 0x9fff⟩]⟩,
   ⟨"full-width", 2, [⟨0xff01, 0xff60⟩, ⟨0xffe0, 0xffee⟩]⟩]

def MAX_RANDOM_CHAR_ATTEMPTS : ℕ := 50

def RANDOM_CHAR_EXCLUDED_CODEPOINTS : List ℕ := [0x3097]

/-- `shouldSkipCodePoint` (src/app/page.tsx:105-122): control characters,
the soft hyphen, whitespace-only glyphs and the exclusion set. -/
def shouldSkipCodePoint (codePoint : ℕ) (ch : ℕ) : Bool :=
  if codePoint < 0x20 then true
  else if 0x7f ≤ codePoint ∧ codePoint ≤ 0x9f then true
  else if codePoint = 0xad then true
  else if isJsWhitespaceCp ch then true
  else if codePoint ∈ RANDOM_CHAR_EXCLUDED_CODEPOINTS then true
  else false

/-- `createRandomCharPool` (src/app/page.tsx:124-136): expand each range
and drop the skipped code points. -/
def createRandomCharPool (ranges : List UnicodeRange) : List ℕ :=
  ranges.flatMap (fun r =>
    (List.range' r.start (r.stop + 1 - r.start)).filter
      (fun cp => !shouldSkipCodePoint cp cp))

structure RandomCharCategoryPool where
  name : String
  weight : ℚ
  ranges : List UnicodeRange
  pool : List ℕ
  deriving Repr, DecidableEq

/-- src/app/page.tsx:138-141. -/
def RANDOM_CHAR_CATEGORY_POOLS : List RandomCharCategoryPool :=
  (RANDOM_CHAR_CATEGORIES.map (fun c =>
    ⟨c.name, c.weight, c.ranges, createRandomCharPool c.ranges⟩)).filter
    (fun c => 0 < c.pool.length)

/-- src/app/page.tsx:143-145. -/
def RANDOM_CHAR_POOL : List ℕ := RANDOM_CHAR_CATEGORY_POOLS.flatMap (·.pool)

/-- src/app/page.tsx:147-150. -/
def RANDOM_CHAR_TOTAL_WEIGHT : ℚ :=
  RANDOM_CHAR_CATEGORY_POOLS.foldl (fun total c => total + c.weight) 0

/-- The cumulative-weight scan inside `pickRandomCategory`
(src/app/page.tsx:157-163). -/
def pickScan :
    List RandomCharCategoryPool → ℚ → ℚ → Option RandomCharCategoryPool
  | [], _, _ => none
  | c :: rest, cumulative, target =>
    if target < cumulative + c.weight then some c
    else pickScan rest (cumulative + c.weight) target

/-- `pickRandomCategory` (src/app/page.tsx:152-167); `rnd` is the
`Math.random()` draw. -/
def pickRandomCategory (rnd : ℚ) : Option RandomCharCategoryPool :=
  if RANDOM_CHAR_TOTAL_WEIGHT ≤ 0 then none
  else
    match pickScan RANDOM_CHAR_CATEGORY_POOLS 0 (rnd * RANDOM_CHAR_TOTAL_WEIGHT) with
    | some c => some c
    | none => RANDOM_CHAR_CATEGORY_POOLS.getLast?

/-- JS array indexing `pool[i]`; out-of-range reads give `undefined`,
caught by the `!candidate` check. -/
def jsIndex (l : List ℕ) (i : ℤ) : Option ℕ :=
  if 0 ≤ i then l.get? i.toNat else none

/-- `const sourcePool = category?.pool ?? RANDOM_CHAR_POOL` for one
attempt (src/app/page.tsx:179-180). -/
def attemptPool (rnd : ℚ) : List ℕ :=
  ((pickRandomCategory rnd).map (fun c => c.pool)).getD RANDOM_CHAR_POOL

/-- The attempt loop of `randomChar` (src/app/page.tsx:178-192). -/
def randomCharAttempts (draws : ℕ → ℚ × ℚ) (validator : Option (ℕ → Bool)) :
    ℕ → ℕ → Option ℕ
  | _, 0 => none
  | attempt, rem + 1 =>
    if (attemptPool (draws attempt).1).length = 0 then
      randomCharAttempts draws validator (attempt + 1) rem
    else
      match jsIndex (attemptPool (draws attempt).1)
          (jsFloor ((draws attempt).2 * ((attemptPool (draws attempt).1).length : ℚ))) with
      | none => randomCharAttempts draws validator (attempt + 1) rem
      | some candidate =>
        match validator with
        | some v =>
          if v candidate then some candidate
          else randomCharAttempts draws validator (attempt + 1) rem
        | none => some candidate

/-- `randomChar` (src/app/page.tsx:173-200): the weighted attempt loop,
then the linear-scan fallback, then `"F"` (code point 0x46). -/
def randomChar (draws : ℕ → ℚ × ℚ) (validator : Option (ℕ → Bool)) : ℕ :=
  if RANDOM_CHAR_POOL.length = 0 then 0x46
  else
    match randomCharAttempts draws validator 0 MAX_RANDOM_CHAR_ATTEMPTS with
    | some c => c
    | none =>
      match validator with
      | some v =>
        match RANDOM_CHAR_POOL.find? v with
        | some c => c
        | none => 0x46
      | none => 0x46

/-- A code point lies inside one of the configured Unicode ranges. -/
def inConfiguredRanges (cp : ℕ) : Bool :=
  RANDOM_CHAR_CATEGORIES.any (fun cat =>
    cat.ranges.any (fun r => decide (r.start ≤ cp) && decide (cp ≤ r.stop)))

/-! ## Theorems: random character generator (C8) -/

/-- A code point is safe when it lies in a configured range and is not
filtered by `shouldSkipCodePoint`. -/
def SafeCp (cp : ℕ) : Prop :=
  inConfiguredRanges cp = true ∧ shouldSkipCodePoint cp cp = false

theorem mem_createRandomCharPool {cp : ℕ} {ranges : List UnicodeRange}
    (h : cp ∈ createRandomCharPool ranges) :
    ranges.any (fun r => decide (r.start ≤ cp) && decide (cp ≤ r.stop)) = true ∧
    shouldSkipCodePoint cp cp = false := by
  rcases List.mem_flatMap.mp h with ⟨r, hr, hcp⟩
  rcases List.mem_filter.mp hcp with ⟨hmem, hskip⟩
  rcases List.mem_range'.mp hmem with ⟨i, hi, hcp'⟩
  constructor
  · refine List.any_eq_true.mpr ⟨r, hr, ?_⟩
    simp only [Bool.and_eq_true, decide_eq_true_eq]
    omega
  · simpa using hskip

theorem safe_of_mem_catpool {c : RandomCharCategoryPool}
    (hc : c ∈ RANDOM_CHAR_CATEGORY_POOLS) {cp : ℕ} (hcp : cp ∈ c.pool) :
    SafeCp cp := by
  rcases List.mem_filter.mp hc with ⟨hmap, _⟩
  rcases List.mem_map.mp hmap with ⟨cat, hcat, hback⟩
  rw [← hback] at hcp
  rcases mem_createRandomCharPool hcp with ⟨hany, hskip⟩
  refine ⟨List.any_eq_true.mpr ⟨cat, hcat, hany⟩, hskip⟩

theorem safe_of_mem_pool {cp : ℕ} (h : cp ∈ RANDOM_CHAR_POOL) : SafeCp cp := by
  rcases List.mem_flatMap.mp h with ⟨c, hc, hcp⟩
  exact safe_of_mem_catpool hc hcp

theorem pickScan_mem :
    ∀ (l : List RandomCharCategoryPool) (cum target : ℚ)
      (c : RandomCharCategoryPool), pickScan l cum target = some c → c ∈ l := by
  intro l
  induction l with
  | nil => intro _ _ _ h; simp [pickScan] at h
  | cons x rest ih =>
    intro cum target c h
    rw [pickScan] at h
    split at h
    · cases h; exact List.mem_cons_self _ _
    · exact List.mem_cons_of_mem _ (ih _ _ _ h)

theorem pickRandomCategory_mem {rnd : ℚ} {c : RandomCharCategoryPool}
    (h : pickRandomCategory rnd = some c) :
    c ∈ RANDOM_CHAR_CATEGORY_POOLS := by
  rw [pickRandomCategory] at h
  split at h
  · exact absurd h (by simp)
  · split at h
    next heq => cases h; exact pickScan_mem _ _ _ _ heq
    next => exact List.mem_of_mem_getLast? h

theorem safe_of_mem_attemptPool {rnd : ℚ} {cp : ℕ}
    (h : cp ∈ attemptPool rnd) : SafeCp cp := by
  rw [attemptPool] at h
  cases hpick : pickRandomCategory rnd with
  | none => rw [hpick] at h; exact safe_of_mem_pool h
  | some c =>
    rw [hpick] at h
    exact safe_of_mem_catpool (pickRandomCategory_mem hpick) h

theorem jsIndex_mem {l : List ℕ} {i : ℤ} {a : ℕ} (h : jsIndex l i = some a) :
    a ∈ l := by
  rw [jsIndex] at h
  split at h
  · exact List.get?_mem h
  · cases h

theorem randomCharAttempts_safe (draws : ℕ → ℚ × ℚ)
    (validator : Option (ℕ → Bool)) :
    ∀ (rem attempt : ℕ) (c : ℕ),
      randomCharAttempts draws validator attempt rem = some c → SafeCp c := by
  intro rem
  induction rem with
  | zero => intro attempt c h; simp [randomCharAttempts] at h
  | succ n ih =>
    intro attempt c h
    rw [randomCharAttempts] at h
    split at h
    · exact ih _ _ h
    · split at h
      next => exact ih _ _ h
      next candidate hidx =>
        split at h
        next v =>
          split at h
          · cases h; exact safe_of_mem_attemptPool (jsIndex_mem hidx)
          · exact ih _ _ h
        next => cases h; exact safe_of_mem_attemptPool (jsIndex_mem hidx)

/-- C8: whatever the random draws and the optional validator, `randomChar`
returns a code point inside one of the configured Unicode ranges that is
not filtered by `shouldSkipCodePoint` (no control characters, no soft
hyphen, no whitespace-only glyph, not in the exclusion set); the ultimate
fallback `"F"` also satisfies this. -/
theorem randomChar_safe (draws : ℕ → ℚ × ℚ) (validator : Option (ℕ → Bool)) :
    inConfiguredRanges (randomChar draws validator) = true ∧
    shouldSkipCodePoint (randomChar draws validator)
      (randomChar draws validator) = false := by
  have hF : SafeCp 0x46 := by constructor <;> decide
  show SafeCp (randomChar draws validator)
  rw [randomChar]
  split
  · exact hF
  · split
    next c heq => exact randomCharAttempts_safe draws validator _ _ _ heq
    next =>
      split
      next v =>
        split
        next c hfind => exact safe_of_mem_pool (List.mem_of_find?_eq_some hfind)
        next => exact hF
      next => exact hF

/-! ## Color model (src/lib/font-loader.ts:133-278)

Hex strings are `List Char`; channel arithmetic is exact rational.
`parseInt(s, 16)` is modelled including its prefix-parsing leniency
(whitespace skip, optional sign, optional `0x`, longest hex-digit
prefix), returning `none` for `NaN`.  When any channel parses to `NaN`,
every arithmetic field of the `hexToHsva` result is `NaN` (the branches
`delta !== 0`, `max === r`, `max === g` all behave as in JS), so the
whole result is modelled as `none`. -/

/-- JS whitespace on `Char` (same code-point set as `jsWhitespaceCodes`). -/
def isJsWhitespaceChar (c : Char) : Bool := c.toNat ∈ jsWhitespaceCodes

/-- JS `String.prototype.trim`. -/
def jsTrim (s : List Char) : List Char :=
  ((s.dropWhile isJsWhitespaceChar).reverse.dropWhile isJsWhitespaceChar).reverse

/-- Value of a hexadecimal digit as accepted by `parseInt(·, 16)`. -/
def hexDigitVal (c : Char) : Option ℕ :=
  if '0' ≤ c ∧ c ≤ '9' then some (c.toNat - 48)
  else if 'a' ≤ c ∧ c ≤ 'f' then some (c.toNat - 87)
  else if 'A' ≤ c ∧ c ≤ 'F' then some (c.toNat - 55)
  else none

/-- JS `parseInt(s, 16)`: skip whitespace, optional sign, optional
`0x`/`0X` prefix, then the longest hex-digit prefix; `none` is `NaN`. -/
def parseInt16 (s : List Char) : Option ℤ :=
  let s1 := s.dropWhile isJsWhitespaceChar
  let signed : ℤ × List Char :=
    match s1 with
    | '-' :: rest => (-1, rest)
    | '+' :: rest => (1, rest)
    | _ => (1, s1)
  let s3 : List Char :=
    match signed.2 with
    | '0' :: 'x' :: rest => rest
    | '0' :: 'X' :: rest => rest
    | _ => signed.2
  let digits := s3.takeWhile (fun c => (hexDigitVal c).isSome)
  if digits.isEmpty then none
  else
    some (signed.1 *
      (digits.foldl (fun acc c => acc * 16 + ((hexDigitVal c).getD 0 : ℤ)) 0))

/-- The first two steps of `normalizeHex`
(src/lib/font-loader.ts:145-148): trim, then ensure a leading `#`. -/
def prefixedHex (input : List Char) : List Char :=
  if (jsTrim input).head? = some '#' then jsTrim input else '#' :: jsTrim input

/-- `normalizeHex` (src/lib/font-loader.ts:144-159): trim, ensure a
leading `#`, double the nibbles of a 3-digit form, truncate anything of
length ≥ 7 to 7 characters, and fall back to `"#000000"` otherwise. -/
def normalizeHex (input : List Char) : List Char :=
  if (prefixedHex input).length = 4 then
    ['#', (prefixedHex input).getD 1 ' ', (prefixedHex input).getD 1 ' ',
     (prefixedHex input).getD 2 ' ', (prefixedHex input).getD 2 ' ',
     (prefixedHex input).getD 3 ' ', (prefixedHex input).getD 3 ' ']
  else if 7 ≤ (prefixedHex input).length then (prefixedHex input).take 7
  else "#000000".toList

structure HsvaColor where
  h : ℚ
  s : ℚ
  v : ℚ
  a : ℚ
  deriving Repr, DecidableEq

/-- The arithmetic core of `hexToHsva`
(src/lib/font-loader.ts:163-189) on already-parsed channels in `[0,1]`. -/
def hexToHsvaCore (r g b : ℚ) : HsvaColor :=
  let mx := max r (max g b)
  let mn := min r (min g b)
  let delta := mx - mn
  let h :=
    if delta ≠ 0 then
      let h0 :=
        if mx = r then jsMod ((g - b) / delta) 6
        else if mx = g then (b - r) / delta + 2
        else (r - g) / delta + 4
      let h1 := h0 * 60
      if h1 < 0 then h1 + 360 else h1
    else 0
  { h := h, s := if mx = 0 then 0 else delta / mx, v := mx, a := 1 }

/-- `hexToHsva` (src/lib/font-loader.ts:161-190).  `none` models the
all-`NaN` result produced when a channel slice fails to parse. -/
def hexToHsva (input : List Char) : Option HsvaColor :=
  match parseInt16 (((normalizeHex input).drop 1).take 2),
        parseInt16 (((normalizeHex input).drop 3).take 2),
        parseInt16 (((normalizeHex input).drop 5).take 2) with
  | some r, some g, some b =>
    some (hexToHsvaCore ((r : ℚ) / 255) ((g : ℚ) / 255) ((b : ℚ) / 255))
  | _, _, _ => none

/-- `clamp` (src/lib/font-loader.ts:140-142) on rationals. -/
def clamp (value lo hi : ℚ) : ℚ := min (max value lo) hi

/-- `clamp` applied to the integer results of `Math.round`. -/
def clampZ (value lo hi : ℤ) : ℤ := min (max value lo) hi

structure RgbaColor where
  r : ℤ
  g : ℤ
  b : ℤ
  a : ℚ
  deriving Repr, DecidableEq

/-- `hsvaToRgba` (src/lib/font-loader.ts:192-230): six-sector HSV→RGB,
`toByte` rounding and clamping each channel to `[0,255]`. -/
def hsvaToRgba (color : HsvaColor) : RgbaColor :=
  let c := color.v * color.s
  let hh := color.h / 60
  let x := c * (1 - |jsMod hh 2 - 1|)
  let m := color.v - c
  let rgb : ℚ × ℚ × ℚ :=
    if 0 ≤ hh ∧ hh < 1 then (c, x, 0)
    else if 1 ≤ hh ∧ hh < 2 then (x, c, 0)
    else if 2 ≤ hh ∧ hh < 3 then (0, c, x)
    else if 3 ≤ hh ∧ hh < 4 then (0, x, c)
    else if 4 ≤ hh ∧ hh < 5 then (x, 0, c)
    else (c, 0, x)
  { r := clampZ (jsRound ((rgb.1 + m) * 255)) 0 255
    g := clampZ (jsRound ((rgb.2.1 + m) * 255)) 0 255
    b := clampZ (jsRound ((rgb.2.2 + m) * 255)) 0 255
    a := clamp color.a 0 1 }

/-- The sixteen lowercase hex digits, in value order (`toString(16)`
output alphabet). -/
def hexChars : List Char :=
  ['0', '1', '2', '3', '4', '5', '6', '7'] ++
    ['8', '9', 'a', 'b', 'c', 'd', 'e', 'f']

/-- `value.toString(16).padStart(2, "0")` for a value already clamped to
`[0, 255]`. -/
def toHexByte (value : ℤ) : List Char :=
  [hexChars.getD (value.toNat / 16 % 16) '0', hexChars.getD (value.toNat % 16) '0']

/-- `hsvaToHex` (src/lib/font-loader.ts:232-236): drop alpha, render the
three rounded channels as 2-digit lowercase hex. -/
def hsvaToHex (color : HsvaColor) : List Char :=
  '#' :: (toHexByte (hsvaToRgba color).r ++ toHexByte (hsvaToRgba color).g ++
    toHexByte (hsvaToRgba color).b)

/-! ## Numeric lemmas for the round-trip proof -/

theorem jsTrunc_zero_of_Ico {q : ℚ} (h0 : 0 ≤ q) (h1 : q < 1) :
    jsTrunc q = 0 := by
  rw [jsTrunc, if_pos h0, Int.floor_eq_zero_iff]
  exact ⟨h0, h1⟩

theorem jsTrunc_zero_of_neg {q : ℚ} (h0 : -1 < q) (h1 : q < 0) :
    jsTrunc q = 0 := by
  rw [jsTrunc, if_neg (by linarith), Int.ceil_eq_zero_iff]
  exact ⟨h0, le_of_lt h1⟩

theorem jsMod_two_id {a : ℚ} (h0 : 0 ≤ a) (h1 : a < 2) : jsMod a 2 = a := by
  rw [jsMod, jsTrunc_zero_of_Ico (by linarith) (by linarith)]
  ring

theorem jsMod_two_sub_two {a : ℚ} (h0 : 2 ≤ a) (h1 : a < 4) :
    jsMod a 2 = a - 2 := by
  have ht : jsTrunc (a / 2) = 1 := by
    rw [jsTrunc, if_pos (by linarith), Int.floor_eq_iff]
    constructor
    · push_cast
      linarith
    · push_cast
      linarith
  rw [jsMod, ht]
  push_cast
  ring

theorem jsMod_two_sub_four {a : ℚ} (h0 : 4 ≤ a) (h1 : a < 6) :
    jsMod a 2 = a - 4 := by
  have ht : jsTrunc (a / 2) = 2 := by
    rw [jsTrunc, if_pos (by linarith), Int.floor_eq_iff]
    constructor
    · push_cast
      linarith
    · push_cast
      linarith
  rw [jsMod, ht]
  push_cast
  ring

theorem jsMod_six_id {a : ℚ} (h0 : -6 < a) (h1 : a < 6) : jsMod a 6 = a := by
  have : jsTrunc (a / 6) = 0 := by
    rcases le_or_lt 0 (a / 6) with hq | hq
    · exact jsTrunc_zero_of_Ico hq (by linarith)
    · exact jsTrunc_zero_of_neg (by linarith) hq
  rw [jsMod, this]
  ring

theorem jsRound_intCast (n : ℤ) : jsRound (n : ℚ) = n := by
  rw [jsRound, Int.floor_eq_iff]
  constructor
  · linarith
  · push_cast
    linarith

theorem clampZ_jsRound {q : ℚ} (h0 : 0 ≤ q) (h1 : q ≤ 255) :
    clampZ (jsRound q) 0 255 = jsRound q := by
  have hlo : (0 : ℤ) ≤ jsRound q := by
    rw [jsRound]
    exact Int.le_floor.mpr (by push_cast; linarith)
  have hhi : jsRound q ≤ 255 := by
    rw [jsRound]
    have : (⌊q + 1 / 2⌋ : ℤ) < 256 := Int.floor_lt.mpr (by push_cast; linarith)
    omega
  rw [clampZ, max_eq_left hlo, min_eq_left hhi]

theorem rgba_channels_eq {e1 e2 e3 R G B : ℚ}
    (h1 : e1 = R * 255) (h2 : e2 = G * 255) (h3 : e3 = B * 255)
    (hR0 : 0 ≤ R) (hR1 : R ≤ 1) (hG0 : 0 ≤ G) (hG1 : G ≤ 1)
    (hB0 : 0 ≤ B) (hB1 : B ≤ 1) :
    (⟨clampZ (jsRound e1) 0 255, clampZ (jsRound e2) 0 255,
      clampZ (jsRound e3) 0 255, clamp 1 0 1⟩ : RgbaColor) =
      ⟨jsRound (R * 255), jsRound (G * 255), jsRound (B * 255), 1⟩ := by
  subst h1 h2 h3
  rw [clampZ_jsRound (by linarith) (by linarith),
    clampZ_jsRound (by linarith) (by linarith),
    clampZ_jsRound (by linarith) (by linarith)]
  have ha : clamp 1 0 1 = 1 := by
    rw [clamp]
    norm_num
  rw [ha]

theorem core_rt_gray (R G B : ℚ) (hR0 : 0 ≤ R) (hR1 : R ≤ 1) (hG0 : 0 ≤ G)
    (hG1 : G ≤ 1) (hB0 : 0 ≤ B) (hB1 : B ≤ 1)
    (hd : max R (max G B) - min R (min G B) = 0) :
    hsvaToRgba (hexToHsvaCore R G B) =
      ⟨jsRound (R * 255), jsRound (G * 255), jsRound (B * 255), 1⟩ := by
  have h1 : R ≤ max R (max G B) := le_max_left _ _
  have h2 : G ≤ max R (max G B) := le_trans (le_max_left _ _) (le_max_right _ _)
  have h3 : B ≤ max R (max G B) := le_trans (le_max_right _ _) (le_max_right _ _)
  have h4 : min R (min G B) ≤ R := min_le_left _ _
  have h5 : min R (min G B) ≤ G := le_trans (min_le_right _ _) (min_le_left _ _)
  have h6 : min R (min G B) ≤ B := le_trans (min_le_right _ _) (min_le_right _ _)
  have hRM : R = max R (max G B) := by linarith
  have hGM : G = max R (max G B) := by linarith
  have hBM : B = max R (max G B) := by linarith
  have hcore : hexToHsvaCore R G B = ⟨0, 0, max R (max G B), 1⟩ := by
    simp only [hexToHsvaCore]
    rw [if_neg (by simpa using hd)]
    congr 1
    split
    · rfl
    · rw [hd]
      simp
  rw [hcore]
  simp only [hsvaToRgba, mul_zero, sub_zero, zero_div, add_zero, zero_add]
  rw [if_pos (by norm_num : (0 : ℚ) ≤ 0 ∧ (0 : ℚ) < 1)]
  exact rgba_channels_eq (by rw [← hRM]; ring) (by rw [← hGM]; ring)
    (by rw [← hBM]; ring) hR0 hR1 hG0 hG1 hB0 hB1

theorem core_rt_maxR_ge (R G B : ℚ) (hR0 : 0 ≤ R) (hR1 : R ≤ 1) (hG0 : 0 ≤ G)
    (hG1 : G ≤ 1) (hB0 : 0 ≤ B) (hB1 : B ≤ 1)
    (hd : max R (max G B) - min R (min G B) ≠ 0)
    (hmx : max R (max G B) = R) (hgb : B ≤ G) :
    hsvaToRgba (hexToHsvaCore R G B) =
      ⟨jsRound (R * 255), jsRound (G * 255), jsRound (B * 255), 1⟩ := by
  have h2 : G ≤ max R (max G B) := le_trans (le_max_left _ _) (le_max_right _ _)
  have h3 : B ≤ max R (max G B) := le_trans (le_max_right _ _) (le_max_right _ _)
  have hGR : G ≤ R := hmx ▸ h2
  have hBR : B ≤ R := hmx ▸ h3
  have hmn : min R (min G B) = B := by
    rw [min_eq_right hgb, min_eq_right hBR]
  have hRBne : R - B ≠ 0 := by
    rw [hmx, hmn] at hd
    exact hd
  have hBRlt : B < R := lt_of_le_of_ne hBR (fun he => hRBne (by rw [he]; ring))
  have hRpos : 0 < R := lt_of_le_of_lt hB0 hBRlt
  have hval0 : 0 ≤ (G - B) / (R - B) :=
    div_nonneg (by linarith) (by linarith)
  have hval1 : (G - B) / (R - B) ≤ 1 := by
    rw [div_le_one (by linarith)]
    linarith
  have hcore : hexToHsvaCore R G B =
      ⟨(G - B) / (R - B) * 60, (R - B) / R, R, 1⟩ := by
    simp only [hexToHsvaCore]
    rw [hmx, hmn]
    rw [if_pos hRBne, if_pos rfl,
      jsMod_six_id (by linarith) (by linarith),
      if_neg (not_lt.mpr (mul_nonneg hval0 (by norm_num))),
      if_neg (ne_of_gt hRpos)]
  rw [hcore]
  simp only [hsvaToRgba]
  have hc : R * ((R - B) / R) = R - B := by
    field_simp
  have hhh : (G - B) / (R - B) * 60 / 60 = (G - B) / (R - B) := by
    ring
  rw [hc, hhh, jsMod_two_id hval0 (by linarith),
    abs_of_nonpos (by linarith : (G - B) / (R - B) - 1 ≤ 0)]
  by_cases hv1 : (G - B) / (R - B) < 1
  · rw [if_pos ⟨hval0, hv1⟩]
    exact rgba_channels_eq (by ring) (by field_simp) (by ring)
      hR0 hR1 hG0 hG1 hB0 hB1
  · have hveq : (G - B) / (R - B) = 1 := le_antisymm hval1 (not_lt.mp hv1)
    have hGR' : G = R := by
      have := (div_eq_one_iff_eq hRBne).mp hveq
      linarith
    rw [if_neg (fun hcon => hv1 hcon.2), if_pos ⟨not_lt.mp hv1, by linarith⟩]
    refine rgba_channels_eq ?_ ?_ (by ring) hR0 hR1 hG0 hG1 hB0 hB1
    · rw [hveq]
      ring
    · rw [hveq, hGR']
      ring

theorem core_rt_maxR_lt (R G B : ℚ) (hR0 : 0 ≤ R) (hR1 : R ≤ 1) (hG0 : 0 ≤ G)
    (hG1 : G ≤ 1) (hB0 : 0 ≤ B) (hB1 : B ≤ 1)
    (hd : max R (max G B) - min R (min G B) ≠ 0)
    (hmx : max R (max G B) = R) (hgb : G < B) :
    hsvaToRgba (hexToHsvaCore R G B) =
      ⟨jsRound (R * 255), jsRound (G * 255), jsRound (B * 255), 1⟩ := by
  have h2 : G ≤ max R (max G B) := le_trans (le_max_left _ _) (le_max_right _ _)
  have h3 : B ≤ max R (max G B) := le_trans (le_max_right _ _) (le_max_right _ _)
  have hGR : G ≤ R := hmx ▸ h2
  have hBR : B ≤ R := hmx ▸ h3
  have hmn : min R (min G B) = G := by
    rw [min_eq_left (le_of_lt hgb), min_eq_right hGR]
  have hRGne : R - G ≠ 0 := by
    rw [hmx, hmn] at hd
    exact hd
  have hGRlt : G < R := lt_of_le_of_ne hGR (fun he => hRGne (by rw [he]; ring))
  have hRpos : 0 < R := lt_of_le_of_lt hG0 hGRlt
  have hvneg : (G - B) / (R - G) < 0 :=
    div_neg_of_neg_of_pos (by linarith) (by linarith)
  have hvlo : -1 ≤ (G - B) / (R - G) := by
    rw [neg_le, ← neg_div]
    rw [div_le_one (by linarith)]
    linarith
  have hcore : hexToHsvaCore R G B =
      ⟨(G - B) / (R - G) * 60 + 360, (R - G) / R, R, 1⟩ := by
    simp only [hexToHsvaCore]
    rw [hmx, hmn]
    rw [if_pos hRGne, if_pos rfl,
      jsMod_six_id (by linarith) (by linarith),
      if_pos (mul_neg_of_neg_of_pos hvneg (by norm_num)),
      if_neg (ne_of_gt hRpos)]
  rw [hcore]
  simp only [hsvaToRgba]
  have hc : R * ((R - G) / R) = R - G := by
    field_simp
  have hhh : ((G - B) / (R - G) * 60 + 360) / 60 = (G - B) / (R - G) + 6 := by
    ring
  rw [hc, hhh,
    jsMod_two_sub_four (by linarith) (by linarith),
    abs_of_nonneg (by linarith : (0 : ℚ) ≤ (G - B) / (R - G) + 6 - 4 - 1)]
  rw [if_neg (fun hcon => absurd hcon.2 (not_lt.mpr (by linarith))),
    if_neg (fun hcon => absurd hcon.2 (not_lt.mpr (by linarith))),
    if_neg (fun hcon => absurd hcon.2 (not_lt.mpr (by linarith))),
    if_neg (fun hcon => absurd hcon.2 (not_lt.mpr (by linarith))),
    if_neg (fun hcon => absurd hcon.2 (not_lt.mpr (by linarith)))]
  exact rgba_channels_eq (by ring) (by ring) (by field_simp; ring)
    hR0 hR1 hG0 hG1 hB0 hB1

theorem core_rt_maxG_lt (R G B : ℚ) (hR0 : 0 ≤ R) (hR1 : R ≤ 1) (hG0 : 0 ≤ G)
    (hG1 : G ≤ 1) (hB0 : 0 ≤ B) (hB1 : B ≤ 1)
    (hd : max R (max G B) - min R (min G B) ≠ 0)
    (hnr : max R (max G B) ≠ R) (hmg : max R (max G B) = G) (hbr : B < R) :
    hsvaToRgba (hexToHsvaCore R G B) =
      ⟨jsRound (R * 255), jsRound (G * 255), jsRound (B * 255), 1⟩ := by
  have h1 : R ≤ max R (max G B) := le_max_left _ _
  have hRG : R ≤ G := hmg ▸ h1
  have hRGlt : R < G := lt_of_le_of_ne hRG (fun he => hnr (by rw [hmg, he]))
  have hBG : B ≤ G := le_of_lt (lt_of_lt_of_le hbr (le_of_lt hRGlt))
  have hmn : min R (min G B) = B := by
    rw [min_eq_right hBG, min_eq_right (le_of_lt hbr)]
  have hGBne : G - B ≠ 0 := by
    rw [hmg, hmn] at hd
    exact hd
  have hBGlt : B < G := lt_of_lt_of_le hbr (le_of_lt hRGlt)
  have hGpos : 0 < G := lt_of_le_of_lt hB0 hBGlt
  have hvneg : (B - R) / (G - B) < 0 :=
    div_neg_of_neg_of_pos (by linarith) (by linarith)
  have hvlo : -1 ≤ (B - R) / (G - B) := by
    rw [neg_le, ← neg_div, div_le_one (by linarith)]
    linarith
  have hcore : hexToHsvaCore R G B =
      ⟨((B - R) / (G - B) + 2) * 60, (G - B) / G, G, 1⟩ := by
    simp only [hexToHsvaCore]
    rw [hmg, hmn]
    rw [if_pos hGBne, if_neg (ne_of_gt hRGlt), if_pos rfl,
      if_neg (not_lt.mpr (mul_nonneg (by linarith) (by norm_num))),
      if_neg (ne_of_gt hGpos)]
  rw [hcore]
  simp only [hsvaToRgba]
  have hc : G * ((G - B) / G) = G - B := by
    field_simp
  have hhh : ((B - R) / (G - B) + 2) * 60 / 60 = (B - R) / (G - B) + 2 := by
    ring
  rw [hc, hhh, jsMod_two_id (by linarith) (by linarith),
    abs_of_nonneg (by linarith : (0 : ℚ) ≤ (B - R) / (G - B) + 2 - 1)]
  rw [if_neg (fun hcon => absurd hcon.2 (not_lt.mpr (by linarith))),
    if_pos ⟨by linarith, by linarith⟩]
  exact rgba_channels_eq (by field_simp; ring) (by ring) (by ring)
    hR0 hR1 hG0 hG1 hB0 hB1

theorem core_rt_maxG_ge (R G B : ℚ) (hR0 : 0 ≤ R) (hR1 : R ≤ 1) (hG0 : 0 ≤ G)
    (hG1 : G ≤ 1) (hB0 : 0 ≤ B) (hB1 : B ≤ 1)
    (hd : max R (max G B) - min R (min G B) ≠ 0)
    (hnr : max R (max G B) ≠ R) (hmg : max R (max G B) = G) (hbr : R ≤ B) :
    hsvaToRgba (hexToHsvaCore R G B) =
      ⟨jsRound (R * 255), jsRound (G * 255), jsRound (B * 255), 1⟩ := by
  have h1 : R ≤ max R (max G B) := le_max_left _ _
  have h3 : B ≤ max R (max G B) := le_trans (le_max_right _ _) (le_max_right _ _)
  have hRG : R ≤ G := hmg ▸ h1
  have hBG : B ≤ G := hmg ▸ h3
  have hRGlt : R < G := lt_of_le_of_ne hRG (fun he => hnr (by rw [hmg, he]))
  have hmn : min R (min G B) = R := by
    rw [min_eq_right hBG, min_eq_left hbr]
  have hGRne : G - R ≠ 0 := by
    rw [hmg, hmn] at hd
    exact hd
  have hGpos : 0 < G := lt_of_le_of_lt hR0 hRGlt
  have hval0 : 0 ≤ (B - R) / (G - R) :=
    div_nonneg (by linarith) (by linarith)
  have hval1 : (B - R) / (G - R) ≤ 1 := by
    rw [div_le_one (by linarith)]
    linarith
  have hcore : hexToHsvaCore R G B =
      ⟨((B - R) / (G - R) + 2) * 60, (G - R) / G, G, 1⟩ := by
    simp only [hexToHsvaCore]
    rw [hmg, hmn]
    rw [if_pos hGRne, if_neg (ne_of_gt hRGlt), if_pos rfl,
      if_neg (not_lt.mpr (mul_nonneg (by linarith) (by norm_num))),
      if_neg (ne_of_gt hGpos)]
  rw [hcore]
  simp only [hsvaToRgba]
  have hc : G * ((G - R) / G) = G - R := by
    field_simp
  have hhh : ((B - R) / (G - R) + 2) * 60 / 60 = (B - R) / (G - R) + 2 := by
    ring
  rw [hc, hhh, jsMod_two_sub_two (by linarith) (by linarith),
    abs_of_nonpos (by linarith : (B - R) / (G - R) + 2 - 2 - 1 ≤ 0)]
  by_cases ht1 : (B - R) / (G - R) < 1
  · rw [if_neg (fun hcon => absurd hcon.2 (not_lt.mpr (by linarith))),
      if_neg (fun hcon => absurd hcon.2 (not_lt.mpr (by linarith))),
      if_pos ⟨by linarith, by linarith⟩]
    exact rgba_channels_eq (by ring) (by ring) (by field_simp; ring)
      hR0 hR1 hG0 hG1 hB0 hB1
  · have hteq : (B - R) / (G - R) = 1 := le_antisymm hval1 (not_lt.mp ht1)
    have hBGeq : B = G := by
      have := (div_eq_one_iff_eq hGRne).mp hteq
      linarith
    rw [if_neg (fun hcon => absurd hcon.2 (not_lt.mpr (by linarith))),
      if_neg (fun hcon => absurd hcon.2 (not_lt.mpr (by linarith))),
      if_neg (fun hcon => absurd hcon.2 (not_lt.mpr (by linarith))),
      if_pos ⟨by linarith, by linarith⟩]
    refine rgba_channels_eq (by ring) ?_ ?_ hR0 hR1 hG0 hG1 hB0 hB1
    · rw [hteq]
      ring
    · rw [hteq, ← hBGeq]
      ring

theorem core_rt_maxB_lt (R G B : ℚ) (hR0 : 0 ≤ R) (hR1 : R ≤ 1) (hG0 : 0 ≤ G)
    (hG1 : G ≤ 1) (hB0 : 0 ≤ B) (hB1 : B ≤ 1)
    (hd : max R (max G B) - min R (min G B) ≠ 0)
    (hnr : max R (max G B) ≠ R) (hng : max R (max G B) ≠ G)
    (hmb : max R (max G B) = B) (hrg : R < G) :
    hsvaToRgba (hexToHsvaCore R G B) =
      ⟨jsRound (R * 255), jsRound (G * 255), jsRound (B * 255), 1⟩ := by
  have h2 : G ≤ max R (max G B) := le_trans (le_max_left _ _) (le_max_right _ _)
  have hGB : G ≤ B := hmb ▸ h2
  have hGBlt : G < B := lt_of_le_of_ne hGB (fun he => hng (by rw [hmb, he]))
  have hmn : min R (min G B) = R := by
    rw [min_eq_left hGB, min_eq_left (le_of_lt hrg)]
  have hBRne : B - R ≠ 0 := by
    rw [hmb, hmn] at hd
    exact hd
  have hRBlt : R < B := lt_trans hrg hGBlt
  have hBpos : 0 < B := lt_of_le_of_lt hG0 hGBlt
  have hvneg : (R - G) / (B - R) < 0 :=
    div_neg_of_neg_of_pos (by linarith) (by linarith)
  have hvlo : -1 ≤ (R - G) / (B - R) := by
    rw [neg_le, ← neg_div, div_le_one (by linarith)]
    linarith
  have hcore : hexToHsvaCore R G B =
      ⟨((R - G) / (B - R) + 4) * 60, (B - R) / B, B, 1⟩ := by
    simp only [hexToHsvaCore]
    rw [hmb, hmn]
    rw [if_pos hBRne, if_neg (ne_of_gt hRBlt), if_neg (ne_of_gt hGBlt),
      if_neg (not_lt.mpr (mul_nonneg (by linarith) (by norm_num))),
      if_neg (ne_of_gt hBpos)]
  rw [hcore]
  simp only [hsvaToRgba]
  have hc : B * ((B - R) / B) = B - R := by
    field_simp
  have hhh : ((R - G) / (B - R) + 4) * 60 / 60 = (R - G) / (B - R) + 4 := by
    ring
  rw [hc, hhh, jsMod_two_sub_two (by linarith) (by linarith),
    abs_of_nonneg (by linarith : (0 : ℚ) ≤ (R - G) / (B - R) + 4 - 2 - 1)]
  rw [if_neg (fun hcon => absurd hcon.2 (not_lt.mpr (by linarith))),
    if_neg (fun hcon => absurd hcon.2 (not_lt.mpr (by linarith))),
    if_neg (fun hcon => absurd hcon.2 (not_lt.mpr (by linarith))),
    if_pos ⟨by linarith, by linarith⟩]
  exact rgba_channels_eq (by ring) (by field_simp; ring) (by ring)
    hR0 hR1 hG0 hG1 hB0 hB1

theorem core_rt_maxB_ge (R G B : ℚ) (hR0 : 0 ≤ R) (hR1 : R ≤ 1) (hG0 : 0 ≤ G)
    (hG1 : G ≤ 1) (hB0 : 0 ≤ B) (hB1 : B ≤ 1)
    (hd : max R (max G B) - min R (min G B) ≠ 0)
    (hnr : max R (max G B) ≠ R) (hng : max R (max G B) ≠ G)
    (hmb : max R (max G B) = B) (hrg : G ≤ R) :
    hsvaToRgba (hexToHsvaCore R G B) =
      ⟨jsRound (R * 255), jsRound (G * 255), jsRound (B * 255), 1⟩ := by
  have h1 : R ≤ max R (max G B) := le_max_left _ _
  have h2 : G ≤ max R (max G B) := le_trans (le_max_left _ _) (le_max_right _ _)
  have hRB : R ≤ B := hmb ▸ h1
  have hGB : G ≤ B := hmb ▸ h2
  have hRBlt : R < B := lt_of_le_of_ne hRB (fun he => hnr (by rw [hmb, he]))
  have hGBlt : G < B := lt_of_le_of_lt hrg hRBlt
  have hmn : min R (min G B) = G := by
    rw [min_eq_left hGB, min_eq_right hrg]
  have hBGne : B - G ≠ 0 := by
    rw [hmb, hmn] at hd
    exact hd
  have hBpos : 0 < B := lt_of_le_of_lt hG0 hGBlt
  have hval0 : 0 ≤ (R - G) / (B - G) :=
    div_nonneg (by linarith) (by linarith)
  have hval1 : (R - G) / (B - G) < 1 := by
    rw [div_lt_one (by linarith)]
    linarith
  have hcore : hexToHsvaCore R G B =
      ⟨((R - G) / (B - G) + 4) * 60, (B - G) / B, B, 1⟩ := by
    simp only [hexToHsvaCore]
    rw [hmb, hmn]
    rw [if_pos hBGne, if_neg (ne_of_gt hRBlt), if_neg (ne_of_gt hGBlt),
      if_neg (not_lt.mpr (mul_nonneg (by linarith) (by norm_num))),
      if_neg (ne_of_gt hBpos)]
  rw [hcore]
  simp only [hsvaToRgba]
  have hc : B * ((B - G) / B) = B - G := by
    field_simp
  have hhh : ((R - G) / (B - G) + 4) * 60 / 60 = (R - G) / (B - G) + 4 := by
    ring
  rw [hc, hhh, jsMod_two_sub_four (by linarith) (by linarith),
    abs_of_nonpos (by linarith : (R - G) / (B - G) + 4 - 4 - 1 ≤ 0)]
  rw [if_neg (fun hcon => absurd hcon.2 (not_lt.mpr (by linarith))),
    if_neg (fun hcon => absurd hcon.2 (not_lt.mpr (by linarith))),
    if_neg (fun hcon => absurd hcon.2 (not_lt.mpr (by linarith))),
    if_neg (fun hcon => absurd hcon.2 (not_lt.mpr (by linarith))),
    if_pos ⟨by linarith, by linarith⟩]
  exact rgba_channels_eq (by field_simp; ring) (by ring) (by ring)
    hR0 hR1 hG0 hG1 hB0 hB1

/-- The exact HSV round trip on rational channels in `[0,1]`:
`hsvaToRgba ∘ hexToHsvaCore` reproduces each channel up to the final
`Math.round`/clamp, with no drift. -/
theorem core_roundtrip (R G B : ℚ) (hR0 : 0 ≤ R) (hR1 : R ≤ 1) (hG0 : 0 ≤ G)
    (hG1 : G ≤ 1) (hB0 : 0 ≤ B) (hB1 : B ≤ 1) :
    hsvaToRgba (hexToHsvaCore R G B) =
      ⟨jsRound (R * 255), jsRound (G * 255), jsRound (B * 255), 1⟩ := by
  by_cases hd : max R (max G B) - min R (min G B) = 0
  · exact core_rt_gray R G B hR0 hR1 hG0 hG1 hB0 hB1 hd
  · by_cases hmx : max R (max G B) = R
    · by_cases hgb : B ≤ G
      · exact core_rt_maxR_ge R G B hR0 hR1 hG0 hG1 hB0 hB1 hd hmx hgb
      · exact core_rt_maxR_lt R G B hR0 hR1 hG0 hG1 hB0 hB1 hd hmx
          (not_le.mp hgb)
    · by_cases hmg : max R (max G B) = G
      · by_cases hbr : B < R
        · exact core_rt_maxG_lt R G B hR0 hR1 hG0 hG1 hB0 hB1 hd hmx hmg hbr
        · exact core_rt_maxG_ge R G B hR0 hR1 hG0 hG1 hB0 hB1 hd hmx hmg
            (not_lt.mp hbr)
      · have hmb : max R (max G B) = B := by
          rcases max_choice R (max G B) with h | h
          · exact absurd h hmx
          · rcases max_choice G B with h2 | h2
            · exact absurd (h.trans h2) hmg
            · exact h.trans h2
        by_cases hrg : R < G
        · exact core_rt_maxB_lt R G B hR0 hR1 hG0 hG1 hB0 hB1 hd hmx hmg hmb hrg
        · exact core_rt_maxB_ge R G B hR0 hR1 hG0 hG1 hB0 hB1 hd hmx hmg hmb
            (not_lt.mp hrg)

/-- Byte-level form: 8-bit channels round-trip exactly. -/
theorem core_roundtrip_nat (r g b : ℕ) (hr : r ≤ 255) (hg : g ≤ 255)
    (hb : b ≤ 255) :
    hsvaToRgba (hexToHsvaCore ((r : ℚ) / 255) ((g : ℚ) / 255) ((b : ℚ) / 255)) =
      ⟨(r : ℤ), (g : ℤ), (b : ℤ), 1⟩ := by
  have hcast : ∀ n : ℕ, n ≤ 255 → ((n : ℚ) / 255 * 255 = (n : ℚ)) ∧
      (0 ≤ (n : ℚ) / 255) ∧ ((n : ℚ) / 255 ≤ 1) := by
    intro n hn
    refine ⟨by field_simp, by positivity, ?_⟩
    rw [div_le_one (by norm_num)]
    exact_mod_cast hn
  obtain ⟨er, hr0, hr1⟩ := hcast r hr
  obtain ⟨eg, hg0, hg1⟩ := hcast g hg
  obtain ⟨eb, hb0, hb1⟩ := hcast b hb
  rw [core_roundtrip _ _ _ hr0 hr1 hg0 hg1 hb0 hb1, er, eg, eb]
  have hjr : ∀ n : ℕ, jsRound (n : ℚ) = (n : ℤ) := by
    intro n
    have := jsRound_intCast (n : ℤ)
    rwa [Int.cast_natCast] at this
  rw [hjr, hjr, hjr]

/-! ## Theorems: hex round trip (C2) and malformed-hex fallback (C7) -/

def hexVal (c : Char) : ℕ := (hexDigitVal c).getD 0

theorem hexChars_not_ws {d : Char} (h : d ∈ hexChars) :
    isJsWhitespaceChar d = false := by
  fin_cases h <;> decide

theorem hexVal_lt {d : Char} (h : d ∈ hexChars) : hexVal d < 16 := by
  fin_cases h <;> decide

theorem hexChars_getD_hexVal {d : Char} (h : d ∈ hexChars) :
    hexChars.getD (hexVal d) '0' = d := by
  fin_cases h <;> decide

theorem parseInt16_pair {d1 d2 : Char} (h1 : d1 ∈ hexChars)
    (h2 : d2 ∈ hexChars) :
    parseInt16 [d1, d2] = some ((16 * hexVal d1 + hexVal d2 : ℕ) : ℤ) := by
  fin_cases h1 <;> fin_cases h2 <;> decide

theorem jsTrim_eq_self {s : List Char}
    (h : ∀ c ∈ s, isJsWhitespaceChar c = false) : jsTrim s = s := by
  rw [jsTrim]
  have h1 : s.dropWhile isJsWhitespaceChar = s := by
    cases s with
    | nil => rfl
    | cons a t =>
      rw [List.dropWhile_cons, h a (by simp)]
      simp
  rw [h1]
  have h2 : s.reverse.dropWhile isJsWhitespaceChar = s.reverse := by
    cases hs : s.reverse with
    | nil => rfl
    | cons a t =>
      have ha : a ∈ s := by
        have : a ∈ s.reverse := by
          rw [hs]
          exact List.mem_cons_self _ _
        simpa using this
      rw [List.dropWhile_cons, h a ha]
      simp
  rw [h2, List.reverse_reverse]

theorem normalizeHex_hex7 {d1 d2 d3 d4 d5 d6 : Char}
    (h1 : isJsWhitespaceChar d1 = false) (h2 : isJsWhitespaceChar d2 = false)
    (h3 : isJsWhitespaceChar d3 = false) (h4 : isJsWhitespaceChar d4 = false)
    (h5 : isJsWhitespaceChar d5 = false) (h6 : isJsWhitespaceChar d6 = false) :
    normalizeHex ['#', d1, d2, d3, d4, d5, d6] =
      ['#', d1, d2, d3, d4, d5, d6] := by
  have htrim : jsTrim ['#', d1, d2, d3, d4, d5, d6] =
      ['#', d1, d2, d3, d4, d5, d6] := by
    apply jsTrim_eq_self
    intro c hc
    simp only [List.mem_cons, List.not_mem_nil, or_false] at hc
    rcases hc with rfl | rfl | rfl | rfl | rfl | rfl | rfl
    · decide
    · exact h1
    · exact h2
    · exact h3
    · exact h4
    · exact h5
    · exact h6
  have hpre : prefixedHex ['#', d1, d2, d3, d4, d5, d6] =
      ['#', d1, d2, d3, d4, d5, d6] := by
    rw [prefixedHex, htrim]
    simp
  rw [normalizeHex, hpre]
  norm_num


theorem hexToHsva_hex7 {d1 d2 d3 d4 d5 d6 : Char}
    (h1 : d1 ∈ hexChars) (h2 : d2 ∈ hexChars) (h3 : d3 ∈ hexChars)
    (h4 : d4 ∈ hexChars) (h5 : d5 ∈ hexChars) (h6 : d6 ∈ hexChars) :
    hexToHsva ['#', d1, d2, d3, d4, d5, d6] =
      some (hexToHsvaCore
        (((16 * hexVal d1 + hexVal d2 : ℕ) : ℚ) / 255)
        (((16 * hexVal d3 + hexVal d4 : ℕ) : ℚ) / 255)
        (((16 * hexVal d5 + hexVal d6 : ℕ) : ℚ) / 255)) := by
  rw [hexToHsva, normalizeHex_hex7 (hexChars_not_ws h1) (hexChars_not_ws h2)
    (hexChars_not_ws h3) (hexChars_not_ws h4) (hexChars_not_ws h5)
    (hexChars_not_ws h6)]
  show (match parseInt16 [d1, d2], parseInt16 [d3, d4], parseInt16 [d5, d6] with
    | some r, some g, some b =>
      some (hexToHsvaCore ((r : ℚ) / 255) ((g : ℚ) / 255) ((b : ℚ) / 255))
    | _, _, _ => none) = _
  rw [parseInt16_pair h1 h2, parseInt16_pair h3 h4, parseInt16_pair h5 h6]
  norm_num

theorem toHexByte_pair {d1 d2 : Char} (h1 : d1 ∈ hexChars)
    (h2 : d2 ∈ hexChars) :
    toHexByte ((16 * hexVal d1 + hexVal d2 : ℕ) : ℤ) = [d1, d2] := by
  have v1 := hexVal_lt h1
  have v2 := hexVal_lt h2
  rw [toHexByte]
  have ht : ((16 * hexVal d1 + hexVal d2 : ℕ) : ℤ).toNat =
      16 * hexVal d1 + hexVal d2 := by
    omega
  rw [ht]
  have hdiv : (16 * hexVal d1 + hexVal d2) / 16 % 16 = hexVal d1 := by omega
  have hmod : (16 * hexVal d1 + hexVal d2) % 16 = hexVal d2 := by omega
  rw [hdiv, hmod, hexChars_getD_hexVal h1, hexChars_getD_hexVal h2]

/-- C2 (amended): for every valid 6-digit **lowercase** hex color string
`#d1d2d3d4d5d6`, `hsvaToHex (hexToHsva x) = x` exactly, with no rounding
drift.  (As stated over all valid hex strings the claim fails: uppercase
digits are parsed but re-rendered lowercase.) -/
theorem hex_roundtrip_lower (d1 d2 d3 d4 d5 d6 : Char)
    (h1 : d1 ∈ hexChars) (h2 : d2 ∈ hexChars) (h3 : d3 ∈ hexChars)
    (h4 : d4 ∈ hexChars) (h5 : d5 ∈ hexChars) (h6 : d6 ∈ hexChars) :
    (hexToHsva ['#', d1, d2, d3, d4, d5, d6]).map hsvaToHex =
      some ['#', d1, d2, d3, d4, d5, d6] := by
  rw [hexToHsva_hex7 h1 h2 h3 h4 h5 h6, Option.map_some']
  have hb : ∀ (a b : Char), a ∈ hexChars → b ∈ hexChars →
      16 * hexVal a + hexVal b ≤ 255 := by
    intro a b ha hb
    have := hexVal_lt ha
    have := hexVal_lt hb
    omega
  rw [hsvaToHex,
    core_roundtrip_nat _ _ _ (hb d1 d2 h1 h2) (hb d3 d4 h3 h4) (hb d5 d6 h5 h6)]
  refine congrArg some ?_
  show '#' :: (toHexByte ((16 * hexVal d1 + hexVal d2 : ℕ) : ℤ) ++
      toHexByte ((16 * hexVal d3 + hexVal d4 : ℕ) : ℤ) ++
      toHexByte ((16 * hexVal d5 + hexVal d6 : ℕ) : ℤ)) =
    ['#', d1, d2, d3, d4, d5, d6]
  rw [toHexByte_pair h1 h2, toHexByte_pair h3 h4, toHexByte_pair h5 h6]
  rfl

/-- Counterexample to C2 as stated: `"#FF0000"` is a valid 6-digit hex
color string, but the round trip returns `"#ff0000"`, not the input. -/
theorem hex_roundtrip_counterexample :
    (hexToHsva ['#', 'F', 'F', '0', '0', '0', '0']).map hsvaToHex =
      some ['#', 'f', 'f', '0', '0', '0', '0'] ∧
    (hexToHsva ['#', 'F', 'F', '0', '0', '0', '0']).map hsvaToHex ≠
      some ['#', 'F', 'F', '0', '0', '0', '0'] := by
  have hx : hexToHsva ['#', 'F', 'F', '0', '0', '0', '0'] =
      some (hexToHsvaCore (((255 : ℤ) : ℚ) / 255) (((0 : ℤ) : ℚ) / 255)
        (((0 : ℤ) : ℚ) / 255)) := by
    rw [hexToHsva, normalizeHex_hex7 (by decide) (by decide) (by decide)
      (by decide) (by decide) (by decide)]
    show (match parseInt16 ['F', 'F'], parseInt16 ['0', '0'],
        parseInt16 ['0', '0'] with
      | some r, some g, some b =>
        some (hexToHsvaCore ((r : ℚ) / 255) ((g : ℚ) / 255) ((b : ℚ) / 255))
      | _, _, _ => none) = _
    rw [show parseInt16 ['F', 'F'] = some 255 from by decide,
      show parseInt16 ['0', '0'] = some 0 from by decide]
  have hcast : (((255 : ℤ) : ℚ) = ((255 : ℕ) : ℚ)) ∧
      (((0 : ℤ) : ℚ) = ((0 : ℕ) : ℚ)) := by
    norm_num
  have hhex : hsvaToHex (hexToHsvaCore (((255 : ℕ) : ℚ) / 255)
      (((0 : ℕ) : ℚ) / 255) (((0 : ℕ) : ℚ) / 255)) =
      ['#', 'f', 'f', '0', '0', '0', '0'] := by
    rw [hsvaToHex,
      core_roundtrip_nat 255 0 0 (by norm_num) (by norm_num) (by norm_num)]
    show '#' :: (toHexByte ((255 : ℕ) : ℤ) ++ toHexByte ((0 : ℕ) : ℤ) ++
      toHexByte ((0 : ℕ) : ℤ)) = _
    decide
  constructor
  · rw [hx, Option.map_some', hcast.1, hcast.2, hhex]
  · rw [hx, Option.map_some', hcast.1, hcast.2, hhex]
    decide

/-- Witness for C2 (amended) at the concrete input `"#1a2b3c"`. -/
theorem hex_roundtrip_lower_witness :
    (hexToHsva ['#', '1', 'a', '2', 'b', '3', 'c']).map hsvaToHex =
      some ['#', '1', 'a', '2', 'b', '3', 'c'] :=
  hex_roundtrip_lower '1' 'a' '2' 'b' '3' 'c' (by decide) (by decide)
    (by decide) (by decide) (by decide) (by decide)

/-- All hexadecimal digit characters accepted by `parseInt(·, 16)`. -/
def jsHexDigits : List Char :=
  hexChars ++ ['A', 'B', 'C', 'D', 'E', 'F']

theorem jsHexDigits_not_ws {d : Char} (h : d ∈ jsHexDigits) :
    isJsWhitespaceChar d = false := by
  fin_cases h <;> decide

/-- `hexToHsva` only looks at the input through `normalizeHex`. -/
theorem hexToHsva_congr {x y : List Char}
    (h : normalizeHex x = normalizeHex y) : hexToHsva x = hexToHsva y := by
  rw [hexToHsva, hexToHsva, h]

/-- Any input that normalizes to `"#000000"` yields the HSVA black. -/
theorem hexToHsva_black_of_norm {input : List Char}
    (h : normalizeHex input = ['#', '0', '0', '0', '0', '0', '0']) :
    hexToHsva input = some ⟨0, 0, 0, 1⟩ := by
  rw [hexToHsva, h]
  show (match parseInt16 ['0', '0'], parseInt16 ['0', '0'],
      parseInt16 ['0', '0'] with
    | some r, some g, some b =>
      some (hexToHsvaCore ((r : ℚ) / 255) ((g : ℚ) / 255) ((b : ℚ) / 255))
    | _, _, _ => none) = _
  rw [show parseInt16 ['0', '0'] = some 0 from by decide]
  refine congrArg some ?_
  have h0 : ((0 : ℤ) : ℚ) / 255 = 0 := by norm_num
  rw [h0, hexToHsvaCore]
  norm_num

/-- Counterexample to C7 as stated: `"#zzzzzz"` is not a well-formed hex
color, yet `hexToHsva` does not fall back to black — all its channel
parses are `NaN` (modelled `none`), unlike `hexToHsva "#000000"`. -/
theorem hexToHsva_malformed_counterexample :
    hexToHsva ['#', 'z', 'z', 'z', 'z', 'z', 'z'] ≠
      hexToHsva ['#', '0', '0', '0', '0', '0', '0'] := by
  have hz : hexToHsva ['#', 'z', 'z', 'z', 'z', 'z', 'z'] = none := by
    rw [hexToHsva, normalizeHex_hex7 (by decide) (by decide) (by decide)
      (by decide) (by decide) (by decide)]
    show (match parseInt16 ['z', 'z'], parseInt16 ['z', 'z'],
        parseInt16 ['z', 'z'] with
      | some r, some g, some b =>
        some (hexToHsvaCore ((r : ℚ) / 255) ((g : ℚ) / 255) ((b : ℚ) / 255))
      | _, _, _ => none) = none
    rw [show parseInt16 ['z', 'z'] = none from by decide]
  have h0 : hexToHsva ['#', '0', '0', '0', '0', '0', '0'] =
      some ⟨0, 0, 0, 1⟩ :=
    hexToHsva_black_of_norm (normalizeHex_hex7 (by decide) (by decide)
      (by decide) (by decide) (by decide) (by decide))
  rw [hz, h0]
  simp

/-- C7 (amended): `hexToHsva` is total (never throws); every input whose
trimmed, `#`-prefixed form has length other than 4 and less than 7
(i.e. anything but a 3-digit form or a form with at least 6 characters
after `#`) falls back to the HSVA value of black; and a 3-digit form
parses with each nibble doubled (`#abc` as `#aabbcc`).  (As stated the
claim fails: a 6-or-more-character form with invalid hex characters is
parsed leniently by `parseInt` and yields `NaN` components, not black.) -/
theorem hexToHsva_fallback_spec :
    (∀ input : List Char,
      (prefixedHex input).length ≠ 4 → (prefixedHex input).length < 7 →
      hexToHsva input = some ⟨0, 0, 0, 1⟩) ∧
    (∀ d1 d2 d3 : Char, d1 ∈ jsHexDigits → d2 ∈ jsHexDigits →
      d3 ∈ jsHexDigits →
      hexToHsva ['#', d1, d2, d3] =
        hexToHsva ['#', d1, d1, d2, d2, d3, d3]) := by
  constructor
  · intro input h4 h7
    apply hexToHsva_black_of_norm
    rw [normalizeHex, if_neg h4, if_neg (not_le.mpr h7)]
    decide
  · intro d1 d2 d3 h1 h2 h3
    apply hexToHsva_congr
    have htrim : jsTrim ['#', d1, d2, d3] = ['#', d1, d2, d3] := by
      apply jsTrim_eq_self
      intro c hc
      simp only [List.mem_cons, List.not_mem_nil, or_false] at hc
      rcases hc with rfl | rfl | rfl | rfl
      · decide
      · exact jsHexDigits_not_ws h1
      · exact jsHexDigits_not_ws h2
      · exact jsHexDigits_not_ws h3
    have hpre : prefixedHex ['#', d1, d2, d3] = ['#', d1, d2, d3] := by
      rw [prefixedHex, htrim]
      simp
    rw [normalizeHex, hpre,
      normalizeHex_hex7 (jsHexDigits_not_ws h1) (jsHexDigits_not_ws h1)
        (jsHexDigits_not_ws h2) (jsHexDigits_not_ws h2)
        (jsHexDigits_not_ws h3) (jsHexDigits_not_ws h3)]
    norm_num

/-- Witness for C7 (amended): `"xy"` (no `#`, two digits) falls back to
black, and `"#abc"` parses exactly as `"#aabbcc"`. -/
theorem hexToHsva_fallback_spec_witness :
    hexToHsva ['x', 'y'] = some ⟨0, 0, 0, 1⟩ ∧
    hexToHsva ['#', 'a', 'b', 'c'] =
      hexToHsva ['#', 'a', 'a', 'b', 'b', 'c', 'c'] :=
  ⟨hexToHsva_fallback_spec.1 ['x', 'y'] (by decide) (by decide),
   hexToHsva_fallback_spec.2 'a' 'b' 'c' (by decide) (by decide) (by decide)⟩
